import Mathlib

/-!
# Verification of the CVMFS staleness monitor (`script.py`)

A shallow embedding of the sampling/accumulation/plotting script.  Python
strings are Lean `String`s; Python dicts (which preserve insertion order)
are association lists updated in place via `dictSet`; network calls and the
remote record store are abstracted as function parameters; exceptions are
`Except`/`Option`.  Each definition is translated directly from the
corresponding function of the source.
-/

namespace CvmfsWatch

/-! ## Association-list model of Python dicts (insertion ordered) -/

/-- Dictionary lookup on an insertion-ordered association list. -/
def lookupKV {β : Type} : List (String × β) → String → Option β
  | [], _ => none
  | (k, v) :: rest, key => if k = key then some v else lookupKV rest key

/-- Python dict assignment `m[key] = v`: update in place if the key exists
(keeping its position), otherwise append at the end (dicts preserve
insertion order). -/
def dictSet {β : Type} : List (String × β) → String → β → List (String × β)
  | [], key, v => [(key, v)]
  | (k, w) :: rest, key, v =>
    if k = key then (key, v) :: rest else (k, w) :: dictSet rest key v

/-! ## Character-level string helpers (kernel-computable) -/

/-- Characters removed by Python's `str.strip()` with no argument. -/
def isPySpace (c : Char) : Bool :=
  c = ' ' || c = '\t' || c = '\n' || c = '\r' ||
  c = Char.ofNat 11 || c = Char.ofNat 12

/-- Strip `isPySpace` characters from both ends of a character list. -/
def trimChars (cs : List Char) : List Char :=
  ((cs.dropWhile isPySpace).reverse.dropWhile isPySpace).reverse

/-- Python `s.strip()`. -/
def pyStrip (s : String) : String := ⟨trimChars s.data⟩

/-- Worker for `splitlines`: accumulate the current line (reversed). -/
def splitNlGo : List Char → List Char → List (List Char)
  | [], acc => [acc.reverse]
  | c :: rest, acc =>
    if c = '\n' then
      acc.reverse :: (match rest with | [] => [] | _ :: _ => splitNlGo rest [])
    else splitNlGo rest (c :: acc)

/-- Python `str.splitlines()` (newline-delimited; no empty trailing line). -/
def splitlines (s : String) : List String :=
  (match s.data with
   | [] => []
   | c :: rest => splitNlGo (c :: rest) []).map (fun l => ⟨l⟩)

/-- `line.startswith('T')`. -/
def startsT (l : String) : Bool :=
  match l.data with
  | c :: _ => c = 'T'
  | [] => false

/-- First occurrence split: `some (before, after)` around the first
occurrence of `sep`, `none` if `sep` does not occur. -/
def breakAt (sep : List Char) : List Char → Option (List Char × List Char)
  | [] => if sep.isEmpty then some ([], []) else none
  | c :: rest =>
    if sep.isPrefixOf (c :: rest) then some ([], (c :: rest).drop sep.length)
    else (breakAt sep rest).map (fun p => (c :: p.1, p.2))

/-- Everything after the first occurrence of `sep` (empty if absent,
modelling the `IndexError` of `split(sep)[1]` as an unused total default;
every configured base URL does contain `"://"`). -/
def afterFirst (sep : List Char) (cs : List Char) : List Char :=
  match breakAt sep cs with
  | some p => p.2
  | none => []

/-- Everything before the first occurrence of `sep` (the whole list if
absent), i.e. `split(sep)[0]`. -/
def beforeFirst (sep : List Char) (cs : List Char) : List Char :=
  match breakAt sep cs with
  | some p => p.1
  | none => cs

/-- Python `int(s)`: surrounding whitespace, an optional sign, then a
non-empty run of decimal digits. -/
def digitsToNat (cs : List Char) : Nat :=
  cs.foldl (fun n c => n * 10 + (c.toNat - 48)) 0

/-- Python `int(s)` on strings, as a total `Option`-valued parse. -/
def parseInt (s : String) : Option Int :=
  match trimChars s.data with
  | [] => none
  | c :: rest =>
    if c = '-' then
      if !rest.isEmpty && rest.all Char.isDigit then
        some (-(digitsToNat rest : Int))
      else none
    else if c = '+' then
      if !rest.isEmpty && rest.all Char.isDigit then
        some ((digitsToNat rest : Int))
      else none
    else
      if (c :: rest).all Char.isDigit then
        some ((digitsToNat (c :: rest) : Int))
      else none

/-- `s` parses as an integer (`int(s)` succeeds). -/
def isIntString (s : String) : Bool := (parseInt s).isSome

/-! ## Endpoint Client: `fetch_cvmfs_timestamp` (script.py lines 105-114) -/

/-- `fetch_cvmfs_timestamp(host_url)`, with the HTTP response abstracted as
its status code and body: raise unless status 200; return the first line
beginning with `'T'`, with the leading `'T'` dropped and the remainder
stripped; raise if no such line exists. -/
def fetch_cvmfs_timestamp (status : Nat) (body : String) :
    Except String String :=
  if status ≠ 200 then
    .error "Failed to fetch cvmfs timestamp"
  else
    match (splitlines body).find? startsT with
    | some line => .ok (pyStrip ⟨line.data.drop 1⟩)
    | none => .error "No line starting with T found in .cvmfspublished"

/-! ## Fleet Sampler: `fetch_all_cvmfs_timestamps` (script.py lines 117-140) -/

/-- The hard-coded mirror base URLs. -/
def hostBases : List String :=
  ["http://cvmfs-egi.gridpp.rl.ac.uk:8000/cvmfs",
   "http://klei.nikhef.nl:8000/cvmfs",
   "http://cvmfs-s1bnl.opensciencegrid.org:8000/cvmfs",
   "http://cvmfs-s1fnal.opensciencegrid.org:8000/cvmfs",
   "http://cvmfsrep.grid.sinica.edu.tw:8000/cvmfs",
   "http://cvmfs-stratum-one.ihep.ac.cn:8000/cvmfs"]

/-- `host_base.split("://")[1].split(":")[0]` — the bare host name. -/
def hostName (base : String) : String :=
  ⟨beforeFirst [':'] (afterFirst [':', '/', '/'] base.data)⟩

/-- `f"{host_base}/{fqrn}/.cvmfspublished"`. -/
def markerUrl (base fqrn : String) : String :=
  base ++ "/" ++ fqrn ++ "/.cvmfspublished"

/-- Did the `Except` computation succeed? -/
def isOkE {ε α : Type} : Except ε α → Bool
  | .ok _ => true
  | .error _ => false

instance {ε α : Type} [DecidableEq ε] [DecidableEq α] :
    DecidableEq (Except ε α) := fun a b =>
  match a, b with
  | .ok x, .ok y =>
    if h : x = y then .isTrue (by rw [h]) else .isFalse (by simp [h])
  | .error x, .error y =>
    if h : x = y then .isTrue (by rw [h]) else .isFalse (by simp [h])
  | .ok _, .error _ => .isFalse (by simp)
  | .error _, .ok _ => .isFalse (by simp)

/-- The loop body of `fetch_all_cvmfs_timestamps`: try each host in order,
record `results[host_name] = timestamp` on success, swallow failures.  The
per-URL behaviour of `fetch_cvmfs_timestamp` over the network is abstracted
as the function `fetch`. -/
def fetchFold (fetch : String → Except String String) (fqrn : String) :
    List String → List (String × String) → List (String × String)
  | [], results => results
  | base :: rest, results =>
    fetchFold fetch fqrn rest
      (match fetch (markerUrl base fqrn) with
       | .ok t => dictSet results (hostName base) t
       | .error _ => results)

/-- `fetch_all_cvmfs_timestamps(fqrn)`: a total function — every per-mirror
failure is caught and the mirror omitted. -/
def fetch_all_cvmfs_timestamps (fetch : String → Except String String)
    (fqrn : String) : List (String × String) :=
  fetchFold fetch fqrn hostBases []

/-! ## `main` (script.py lines 145-209) -/

/-- One element of the `state.json` array.  `none` fields model missing
JSON keys. -/
structure Entry where
  timestamp : Option String
  fqrns : Option (List (String × List (String × String)))
deriving DecidableEq

/-- The tracked repositories: `fqrns = ["singularity", "eic"]`. -/
def fqrnsCfg : List String := ["singularity", "eic"]

/-- The per-FQRN sampling loop of `main` (lines 166-172): keep a repository
only if its mirror map is non-empty. -/
def buildFold (fetch : String → Except String String) :
    List String → List (String × List (String × String)) →
    List (String × List (String × String))
  | [], acc => acc
  | f :: rest, acc =>
    buildFold fetch rest
      (if (fetch_all_cvmfs_timestamps fetch f).isEmpty then acc
       else dictSet acc f (fetch_all_cvmfs_timestamps fetch f))

/-- `fqrn_data` as built by `main`. -/
def buildFqrnData (fetch : String → Except String String) :
    List (String × List (String × String)) :=
  buildFold fetch fqrnsCfg []

/-- `str(int(datetime.datetime.utcnow().timestamp()))` (line 178), with the
wall clock abstracted as the integer `now`. -/
def current_timestamp (now : Int) : String := toString now

/-- The `new_entry` dict of lines 179-182. -/
def mkEntry (nowTs : String)
    (fd : List (String × List (String × String))) : Entry :=
  ⟨some nowTs, some fd⟩

/-- `data.append(new_entry)` (line 185). -/
def appendEntry (data : List Entry) (nowTs : String)
    (fd : List (String × List (String × String))) : List Entry :=
  data ++ [mkEntry nowTs fd]

/-- The write request `main` issues: `update_file` with the previously read
sha (lines 191-192), or a sha-less create (lines 194-205). -/
inductive WriteReq where
  | update (d : List Entry) (sha : String)
  | create (d : List Entry)
deriving DecidableEq

/-- The record carried by a write request. -/
def reqData : WriteReq → List Entry
  | .update d _ => d
  | .create d => d

/-- Observable outcome of one run of `main`: either the
`"Failed to fetch timestamps from any FQRN"` error of line 175 (raised
before any store interaction), or a single write attempt together with the
store's response to it. -/
inductive PassOutcome where
  | noData
  | writeAttempt (req : WriteReq) (res : Except String Unit)

/-- Lines 156-163: try to read and parse `state.json`; on ANY failure
(read failure or parse failure) fall back to `data = []`, `sha = None`.
`readRes` abstracts `get_file` (content and sha of the stored file) and
`parse` abstracts `json.loads` against the expected schema. -/
def loadState (readRes : Except String (String × String))
    (parse : String → Option (List Entry)) : List Entry × Option String :=
  match readRes with
  | .ok (content, sha) =>
    match parse content with
    | some d => (d, some sha)
    | none => ([], none)
  | .error _ => ([], none)

/-- `main`, from the state read (line 156) to the store write (line 205).
`writeOut` abstracts the remote store's response to the write request. -/
def mainPass (readRes : Except String (String × String))
    (parse : String → Option (List Entry))
    (fetch : String → Except String String) (nowTs : String)
    (writeOut : WriteReq → Except String Unit) : PassOutcome :=
  let st := loadState readRes parse
  if (buildFqrnData fetch).isEmpty then .noData
  else
    let req :=
      match st.2 with
      | some sha => WriteReq.update (appendEntry st.1 nowTs (buildFqrnData fetch)) sha
      | none => WriteReq.create (appendEntry st.1 nowTs (buildFqrnData fetch))
    .writeAttempt req (writeOut req)

/-- Modelled from the spec: the remote record store, an external
collaborator (spec section 4.3 and section 6).  It holds at most one
`(record, version token)`; an update succeeds only when the supplied token
matches the stored one, and a token-less create succeeds only when nothing
is stored yet (this is also GitHub's contents API, which rejects a sha-less
PUT to an existing path). -/
def storeWrite (stored : Option (List Entry × String)) :
    WriteReq → Except String Unit
  | .update _ sha =>
    match stored with
    | some s => if s.2 = sha then .ok () else .error "VersionConflict"
    | none => .error "NotFound"
  | .create _ =>
    match stored with
    | some _ => .error "Failed to create file: path already exists"
    | none => .ok ()

/-- Modelled from the spec: the store's state after a pass — unchanged
unless the single write attempt succeeded. -/
def finalStore (stored : Option (List Entry × String)) (newSha : String) :
    PassOutcome → Option (List Entry × String)
  | .noData => stored
  | .writeAttempt req res =>
    match res with
    | .ok _ => some (reqData req, newSha)
    | .error _ => stored

/-! ## Lag Deriver: the data-collection part of `plot_lag`
(script.py lines 56-102) -/

/-- The per-host accumulator: the two parallel lists
`host_data[host] = {'timestamps': [...], 'lags': [...]}`.  The code pushes
`datetime.utcfromtimestamp(cur_ts)` — represented here by the integer
`cur_ts` itself (the conversion is injective). -/
structure HostSeries where
  timestamps : List Int
  lags : List Rat
deriving DecidableEq

/-- `{'timestamps': [], 'lags': []}`. -/
def emptySeries : HostSeries := ⟨[], []⟩

abbrev HostData := List (String × HostSeries)

/-- `if host not in host_data: host_data[host] = {...}` (lines 71-72). -/
def ensureHost (hd : HostData) (h : String) : HostData :=
  if (lookupKV hd h).isSome then hd else hd ++ [(h, emptySeries)]

/-- The two `.append` calls of lines 77-78: in-place update of the entry of
host `h`. -/
def appendPair : HostData → String → Int → Rat → HostData
  | [], _, _, _ => []
  | (k, s) :: rest, h, t, lag =>
    if k = h then (k, ⟨s.timestamps ++ [t], s.lags ++ [lag]⟩) :: rest
    else (k, s) :: appendPair rest h t lag

/-- Body of the inner loop over `entry['fqrns'][fqrn].items()`
(lines 70-80): register the host, then append the pair if the mirror value
parses, and swallow the parse failure otherwise. -/
def lagStep (ts : Int) (hd : HostData) (p : String × String) : HostData :=
  match parseInt p.2 with
  | some mv => appendPair (ensureHost hd p.1) p.1 ts (((mv - ts : Int) : Rat) / 3600)
  | none => ensureHost hd p.1

/-- Body of the outer loop over entries (lines 59-80).  `none` models the
uncaught exception from `int(entry['timestamp'])`: the containment check of
line 64 happens first, so it can only trigger for an entry that does
contain the target repository. -/
def processEntry (fqrn : String) (hd : HostData) (e : Entry) :
    Option HostData :=
  match e.timestamp, e.fqrns with
  | some tsS, some fq =>
    match lookupKV fq fqrn with
    | none => some hd
    | some hm =>
      match parseInt tsS with
      | none => none
      | some ts => some (hm.foldl (lagStep ts) hd)
  | _, _ => some hd

/-- The outer loop, threading `host_data` through all entries. -/
def collectFold (fqrn : String) : List Entry → HostData → Option HostData
  | [], hd => some hd
  | e :: rest, hd =>
    match processEntry fqrn hd e with
    | some hd1 => collectFold fqrn rest hd1
    | none => none

/-- The `host_data` accumulated by `plot_lag(data, fqrn)`. -/
def collectHostData (data : List Entry) (fqrn : String) : Option HostData :=
  collectFold fqrn data []

/-- Observable outcome of `plot_lag`: an uncaught exception, the
`'No valid timestamp pairs found'` message of line 102, or a rendered
figure carrying one plotted line per host with a non-empty series
(line 87 skips hosts whose `timestamps` list is empty). -/
inductive PlotOutcome where
  | raised
  | noData
  | rendered (lines : HostData)
deriving DecidableEq

/-- `plot_lag(data, fqrn)` as its observable outcome. -/
def plot_lag (data : List Entry) (fqrn : String) : PlotOutcome :=
  match collectHostData data fqrn with
  | none => .raised
  | some hd =>
    if hd.isEmpty then .noData
    else .rendered (hd.filter (fun q => !q.2.timestamps.isEmpty))

/-- The `timestamps` list recorded for host `h` (empty if unregistered). -/
def tsOf (hd : HostData) (h : String) : List Int :=
  match lookupKV hd h with
  | some s => s.timestamps
  | none => []

/-- The `lags` list recorded for host `h` (empty if unregistered). -/
def lagOf (hd : HostData) (h : String) : List Rat :=
  match lookupKV hd h with
  | some s => s.lags
  | none => []

/-- The `(sample_time, lag_hours)` pairs one mirror map contributes to the
series of `host`: each value of `host` that parses as an integer `mv`
contributes `(ts, (mv - ts)/3600)`. -/
def pairsFor (ts : Int) (host : String) (hm : List (String × String)) :
    List (Int × Rat) :=
  hm.filterMap (fun p =>
    if p.1 = host then
      (parseInt p.2).map (fun mv => (ts, ((mv - ts : Int) : Rat) / 3600))
    else none)

/-- Follows the spec's words (section 4.5, Lag Deriver), for one entry:
an entry that contains the target repository contributes, per mirror value
that parses as an integer,
`(sample_time, (mirror_timestamp - sample_time)/3600)`; unparseable mirror
values are skipped. -/
def entryPairs (fqrn host : String) (e : Entry) : List (Int × Rat) :=
  match e.timestamp, e.fqrns with
  | some tsS, some fq =>
    match lookupKV fq fqrn with
    | some hm =>
      match parseInt tsS with
      | some ts => pairsFor ts host hm
      | none => []
    | none => []
  | _, _ => []

/-- Follows the spec's words (section 4.5): the mirror's full derived
series, in entry order. -/
def lagSeriesSpec (fqrn host : String) : List Entry → List (Int × Rat)
  | [] => []
  | e :: rest => entryPairs fqrn host e ++ lagSeriesSpec fqrn host rest

/-! ## Conformance checkers for the Sample Entry data model -/

/-- Every mirror value in the entry is a string-encoded integer. -/
def entryValuesIntEncoded (e : Entry) : Bool :=
  match e.fqrns with
  | some fq => fq.all (fun p => p.2.all (fun q => isIntString q.2))
  | none => false

/-- The entry's `timestamp` field is a string-encoded integer. -/
def entryTsIntEncoded (e : Entry) : Bool :=
  match e.timestamp with
  | some t => isIntString t
  | none => false

/-- The Sample Entry conformance predicate of the claim: `sample_time`
integer-valued and every mirror value a string-encoded integer. -/
def entryConforms (e : Entry) : Bool :=
  entryTsIntEncoded e && entryValuesIntEncoded e

/-- No entry of `data` has an `fqrns` map containing `fqrn`. -/
def lacksRepo (data : List Entry) (fqrn : String) : Bool :=
  data.all (fun e =>
    match e.fqrns with
    | some fq => (lookupKV fq fqrn).isNone
    | none => true)

/-- Record wellformedness relative to a target repository: every entry that
contains the target repository carries a parseable `timestamp` field (the
data model stores unix seconds there). -/
def entriesParseFor (data : List Entry) (fqrn : String) : Bool :=
  data.all (fun e =>
    match e.fqrns with
    | some fq =>
      match lookupKV fq fqrn with
      | some _ =>
        match e.timestamp with
        | some t => isIntString t
        | none => false
      | none => true
    | none => true)

/-! ## Lemmas: the Python-dict model -/

theorem lookupKV_append_some {β : Type} {m : List (String × β)} {k : String}
    {v : β} (l : List (String × β)) (h : lookupKV m k = some v) :
    lookupKV (m ++ l) k = some v := by
  induction m with
  | nil => simp [lookupKV] at h
  | cons p rest ih =>
    obtain ⟨a, b⟩ := p
    by_cases hak : a = k
    · simpa [lookupKV, hak] using h
    · simp only [lookupKV, hak, if_false, List.cons_append] at h ⊢
      exact ih h

theorem lookupKV_append_none {β : Type} {m : List (String × β)} {k : String}
    (l : List (String × β)) (h : lookupKV m k = none) :
    lookupKV (m ++ l) k = lookupKV l k := by
  induction m with
  | nil => simp
  | cons p rest ih =>
    obtain ⟨a, b⟩ := p
    by_cases hak : a = k
    · simp [lookupKV, hak] at h
    · simp only [lookupKV, hak, if_false, List.cons_append] at h ⊢
      exact ih h

theorem dictSet_lookup_self {β : Type} (m : List (String × β)) (k : String)
    (v : β) : lookupKV (dictSet m k v) k = some v := by
  induction m with
  | nil => simp [dictSet, lookupKV]
  | cons p rest ih =>
    obtain ⟨a, b⟩ := p
    by_cases hak : a = k
    · simp [dictSet, hak, lookupKV]
    · simp [dictSet, hak, lookupKV, ih]

theorem dictSet_lookup_ne {β : Type} (m : List (String × β)) {k key : String}
    (v : β) (hne : k ≠ key) :
    lookupKV (dictSet m k v) key = lookupKV m key := by
  induction m with
  | nil => simp [dictSet, lookupKV, hne]
  | cons p rest ih =>
    obtain ⟨a, b⟩ := p
    by_cases hak : a = k
    · subst hak
      simp [dictSet, lookupKV, hne]
    · simp [dictSet, hak, lookupKV, ih]

theorem dictSet_length_new {β : Type} {m : List (String × β)} {k : String}
    (v : β) (h : lookupKV m k = none) :
    (dictSet m k v).length = m.length + 1 := by
  induction m with
  | nil => simp [dictSet]
  | cons p rest ih =>
    obtain ⟨a, b⟩ := p
    by_cases hak : a = k
    · simp [lookupKV, hak] at h
    · simp only [lookupKV, hak, if_false] at h
      simp [dictSet, hak, ih h]

theorem dictSet_length_old {β : Type} {m : List (String × β)} {k : String}
    (v : β) (h : (lookupKV m k).isSome) :
    (dictSet m k v).length = m.length := by
  induction m with
  | nil => simp [lookupKV] at h
  | cons p rest ih =>
    obtain ⟨a, b⟩ := p
    by_cases hak : a = k
    · simp [dictSet, hak]
    · simp only [lookupKV, hak, if_false] at h
      simp [dictSet, hak, ih h]

theorem dictSet_mem {β : Type} {m : List (String × β)} {k : String} {v : β}
    {q : String × β} (h : q ∈ dictSet m k v) : q ∈ m ∨ q = (k, v) := by
  induction m with
  | nil => simpa [dictSet] using h
  | cons p rest ih =>
    obtain ⟨a, b⟩ := p
    by_cases hak : a = k
    · rw [dictSet, if_pos hak] at h
      rcases List.mem_cons.mp h with h1 | h1
      · exact Or.inr h1
      · exact Or.inl (List.mem_cons_of_mem _ h1)
    · rw [dictSet, if_neg hak] at h
      rcases List.mem_cons.mp h with h1 | h1
      · exact Or.inl (by simp [h1])
      · rcases ih h1 with h2 | h2
        · exact Or.inl (List.mem_cons_of_mem _ h2)
        · exact Or.inr h2

theorem dictSet_ne_nil {β : Type} (m : List (String × β)) (k : String)
    (v : β) : dictSet m k v ≠ [] := by
  cases m with
  | nil => simp [dictSet]
  | cons p rest =>
    obtain ⟨a, b⟩ := p
    by_cases hak : a = k
    · simp [dictSet, hak]
    · simp [dictSet, hak]

/-! ## Lemmas: the Fleet Sampler fold -/

theorem fetchFold_lookup_pres (fetch : String → Except String String)
    (fqrn key : String) (bases : List String)
    (hk : ∀ b ∈ bases, hostName b ≠ key) :
    ∀ acc, lookupKV (fetchFold fetch fqrn bases acc) key = lookupKV acc key := by
  induction bases with
  | nil => intro acc; rfl
  | cons b rest ih =>
    intro acc
    have hb : hostName b ≠ key := hk b (List.mem_cons_self b rest)
    have hrest : ∀ b' ∈ rest, hostName b' ≠ key := fun b' hb' =>
      hk b' (List.mem_cons_of_mem _ hb')
    rw [fetchFold]
    cases hfb : fetch (markerUrl b fqrn) with
    | ok t =>
      rw [ih hrest]
      exact dictSet_lookup_ne acc t hb
    | error msg => exact ih hrest acc

theorem fetchFold_found (fetch : String → Except String String)
    (fqrn : String) {bases : List String} {base : String} {t : String}
    (hnd : (bases.map hostName).Nodup) (hb : base ∈ bases)
    (hf : fetch (markerUrl base fqrn) = .ok t) :
    ∀ acc, lookupKV (fetchFold fetch fqrn bases acc) (hostName base)
      = some t := by
  induction bases with
  | nil => cases hb
  | cons b rest ih =>
    intro acc
    rw [List.map_cons, List.nodup_cons] at hnd
    rcases List.mem_cons.mp hb with hbb | hbr
    · subst hbb
      rw [fetchFold, hf]
      have hrest : ∀ b' ∈ rest, hostName b' ≠ hostName base := by
        intro b' hb' hcon
        exact hnd.1 (hcon ▸ List.mem_map_of_mem hostName hb')
      rw [fetchFold_lookup_pres fetch fqrn _ rest hrest]
      exact dictSet_lookup_self acc (hostName base) t
    · rw [fetchFold]
      cases hfb : fetch (markerUrl b fqrn) with
      | ok u => exact ih hnd.2 hbr _
      | error msg => exact ih hnd.2 hbr _

theorem fetchFold_length (fetch : String → Except String String)
    (fqrn : String) (bases : List String)
    (hnd : (bases.map hostName).Nodup) :
    ∀ acc, (∀ b ∈ bases, lookupKV acc (hostName b) = none) →
      (fetchFold fetch fqrn bases acc).length
        = acc.length
          + (bases.filter (fun b => isOkE (fetch (markerUrl b fqrn)))).length := by
  induction bases with
  | nil => intro acc _; simp [fetchFold]
  | cons b rest ih =>
    intro acc hacc
    rw [List.map_cons, List.nodup_cons] at hnd
    have hbacc : lookupKV acc (hostName b) = none :=
      hacc b (List.mem_cons_self b rest)
    rw [fetchFold]
    cases hfb : fetch (markerUrl b fqrn) with
    | ok t =>
      have hacc' : ∀ b' ∈ rest, lookupKV (dictSet acc (hostName b) t)
          (hostName b') = none := by
        intro b' hb'
        have hne : hostName b ≠ hostName b' := by
          intro hcon
          exact hnd.1 (hcon ▸ List.mem_map_of_mem hostName hb')
        rw [dictSet_lookup_ne acc t hne]
        exact hacc b' (List.mem_cons_of_mem _ hb')
      rw [ih hnd.2 _ hacc', dictSet_length_new t hbacc]
      simp [List.filter_cons, hfb, isOkE]
      omega
    | error msg =>
      have hacc' : ∀ b' ∈ rest, lookupKV acc (hostName b') = none :=
        fun b' hb' => hacc b' (List.mem_cons_of_mem _ hb')
      rw [ih hnd.2 _ hacc']
      simp [List.filter_cons, hfb, isOkE]

theorem fetchFold_mem (fetch : String → Except String String)
    (fqrn : String) (bases : List String) :
    ∀ acc, ∀ q ∈ fetchFold fetch fqrn bases acc,
      q ∈ acc ∨ ∃ b ∈ bases, fetch (markerUrl b fqrn) = .ok q.2 := by
  induction bases with
  | nil => intro acc q hq; exact Or.inl hq
  | cons b rest ih =>
    intro acc q hq
    rw [fetchFold] at hq
    cases hfb : fetch (markerUrl b fqrn) with
    | ok t =>
      rw [hfb] at hq
      rcases ih _ q hq with h1 | ⟨b', hb', hf'⟩
      · rcases dictSet_mem h1 with h2 | h2
        · exact Or.inl h2
        · refine Or.inr ⟨b, List.mem_cons_self b rest, ?_⟩
          rw [hfb, h2]
      · exact Or.inr ⟨b', List.mem_cons_of_mem _ hb', hf'⟩
    | error msg =>
      rw [hfb] at hq
      rcases ih _ q hq with h1 | ⟨b', hb', hf'⟩
      · exact Or.inl h1
      · exact Or.inr ⟨b', List.mem_cons_of_mem _ hb', hf'⟩

theorem filter_length_split {α : Type} (l : List α) (p : α → Bool) :
    (l.filter p).length + (l.filter (fun a => !p a)).length = l.length := by
  induction l with
  | nil => simp
  | cons a rest ih =>
    cases hpa : p a <;> simp [List.filter_cons, hpa, ← ih] <;> omega

/-! ## Lemmas: the per-FQRN loop of `main` -/

theorem buildFold_all_empty (fetch : String → Except String String)
    {fs : List String} (h : ∀ f ∈ fs, fetch_all_cvmfs_timestamps fetch f = []) :
    ∀ acc, buildFold fetch fs acc = acc := by
  induction fs with
  | nil => intro acc; rfl
  | cons f rest ih =>
    intro acc
    have hf : fetch_all_cvmfs_timestamps fetch f = [] :=
      h f (List.mem_cons_self f rest)
    rw [buildFold, hf]
    simp only [List.isEmpty_nil, if_true]
    exact ih (fun f' hf' => h f' (List.mem_cons_of_mem _ hf')) acc

theorem buildFold_ne_of_ne (fetch : String → Except String String)
    (fs : List String) :
    ∀ acc, acc ≠ [] → buildFold fetch fs acc ≠ [] := by
  induction fs with
  | nil => intro acc hacc; exact hacc
  | cons f rest ih =>
    intro acc hacc
    rw [buildFold]
    cases hfa : (fetch_all_cvmfs_timestamps fetch f).isEmpty with
    | true => simpa using ih acc hacc
    | false =>
      simp only [Bool.false_eq_true, if_false]
      exact ih _ (dictSet_ne_nil acc f _)

theorem buildFold_ne_of_mem (fetch : String → Except String String)
    {fs : List String} {f : String} (hf : f ∈ fs)
    (hne : fetch_all_cvmfs_timestamps fetch f ≠ []) :
    ∀ acc, buildFold fetch fs acc ≠ [] := by
  induction fs with
  | nil => cases hf
  | cons g rest ih =>
    intro acc
    rw [buildFold]
    rcases List.mem_cons.mp hf with hfg | hfr
    · subst hfg
      have hie : (fetch_all_cvmfs_timestamps fetch f).isEmpty = false := by
        cases hc : fetch_all_cvmfs_timestamps fetch f
        · exact absurd hc hne
        · rfl
      rw [hie]
      simp only [Bool.false_eq_true, if_false]
      exact buildFold_ne_of_ne fetch rest _ (dictSet_ne_nil acc f _)
    · cases hfa : (fetch_all_cvmfs_timestamps fetch g).isEmpty with
      | true => simpa using ih hfr acc
      | false =>
        simp only [Bool.false_eq_true, if_false]
        exact ih hfr _

theorem buildFold_lookup_none (fetch : String → Except String String)
    {key : String} (hke : fetch_all_cvmfs_timestamps fetch key = [])
    (fs : List String) :
    ∀ acc, lookupKV acc key = none →
      lookupKV (buildFold fetch fs acc) key = none := by
  induction fs with
  | nil => intro acc hacc; exact hacc
  | cons f rest ih =>
    intro acc hacc
    rw [buildFold]
    cases hfa : (fetch_all_cvmfs_timestamps fetch f).isEmpty with
    | true => simpa using ih acc hacc
    | false =>
      simp only [Bool.false_eq_true, if_false]
      have hfk : f ≠ key := by
        intro hcon
        subst hcon
        rw [hke] at hfa
        simp at hfa
      refine ih _ ?_
      rw [dictSet_lookup_ne acc _ hfk]
      exact hacc

theorem buildFold_mem (fetch : String → Except String String)
    (fs : List String) :
    ∀ acc, ∀ p ∈ buildFold fetch fs acc,
      p ∈ acc ∨ ∃ f, p.2 = fetch_all_cvmfs_timestamps fetch f := by
  induction fs with
  | nil => intro acc p hp; exact Or.inl hp
  | cons f rest ih =>
    intro acc p hp
    rw [buildFold] at hp
    cases hfa : (fetch_all_cvmfs_timestamps fetch f).isEmpty with
    | true =>
      rw [hfa] at hp
      simp only [if_true] at hp
      exact ih acc p hp
    | false =>
      rw [hfa] at hp
      simp only [Bool.false_eq_true, if_false] at hp
      rcases ih _ p hp with h1 | h1
      · rcases dictSet_mem h1 with h2 | h2
        · exact Or.inl h2
        · exact Or.inr ⟨f, by rw [h2]⟩
      · exact Or.inr h1

/-- The host names of the six configured mirror bases are pairwise
distinct. -/
theorem hostNodup : (hostBases.map hostName).Nodup := by decide

/-! ## Lemmas: `mainPass` -/

theorem mainPass_eq_noData (readRes : Except String (String × String))
    (parse : String → Option (List Entry))
    (fetch : String → Except String String) (nowTs : String)
    (writeOut : WriteReq → Except String Unit)
    (h : buildFqrnData fetch = []) :
    mainPass readRes parse fetch nowTs writeOut = .noData := by
  simp [mainPass, h]

theorem mainPass_write (readRes : Except String (String × String))
    (parse : String → Option (List Entry))
    (fetch : String → Except String String) (nowTs : String)
    (writeOut : WriteReq → Except String Unit)
    (h : buildFqrnData fetch ≠ []) :
    ∃ req, mainPass readRes parse fetch nowTs writeOut
        = .writeAttempt req (writeOut req)
      ∧ reqData req
        = appendEntry (loadState readRes parse).1 nowTs (buildFqrnData fetch) := by
  have hie : (buildFqrnData fetch).isEmpty = false := by
    cases hc : buildFqrnData fetch
    · exact absurd hc h
    · rfl
  cases hsha : (loadState readRes parse).2 with
  | some sha =>
    refine ⟨WriteReq.update
      (appendEntry (loadState readRes parse).1 nowTs (buildFqrnData fetch)) sha,
      ?_, rfl⟩
    simp [mainPass, hie, hsha]
  | none =>
    refine ⟨WriteReq.create
      (appendEntry (loadState readRes parse).1 nowTs (buildFqrnData fetch)),
      ?_, rfl⟩
    simp [mainPass, hie, hsha]

theorem mainPass_create (readRes : Except String (String × String))
    (parse : String → Option (List Entry))
    (fetch : String → Except String String) (nowTs : String)
    (writeOut : WriteReq → Except String Unit)
    (hsha : (loadState readRes parse).2 = none)
    (h : buildFqrnData fetch ≠ []) :
    mainPass readRes parse fetch nowTs writeOut
      = .writeAttempt
          (WriteReq.create
            (appendEntry (loadState readRes parse).1 nowTs (buildFqrnData fetch)))
          (writeOut (WriteReq.create
            (appendEntry (loadState readRes parse).1 nowTs (buildFqrnData fetch)))) := by
  have hie : (buildFqrnData fetch).isEmpty = false := by
    cases hc : buildFqrnData fetch
    · exact absurd hc h
    · rfl
  simp [mainPass, hie, hsha]

/-! ## Lemmas: the Lag Deriver accumulator -/

theorem ensureHost_lookup_ne (hd : HostData) {h key : String} (hne : h ≠ key) :
    lookupKV (ensureHost hd h) key = lookupKV hd key := by
  unfold ensureHost
  by_cases hs : (lookupKV hd h).isSome
  · rw [if_pos hs]
  · rw [if_neg hs]
    cases hsk : lookupKV hd key with
    | some w => exact lookupKV_append_some _ hsk
    | none => rw [lookupKV_append_none _ hsk]; simp [lookupKV, hne]

theorem ensureHost_lookup_self (hd : HostData) (h : String) :
    lookupKV (ensureHost hd h) h
      = some ((lookupKV hd h).getD emptySeries) := by
  unfold ensureHost
  cases hs : lookupKV hd h with
  | some s => simp [hs]
  | none =>
    have : (lookupKV hd h).isSome = false := by rw [hs]; rfl
    rw [if_neg (by simp [this]), lookupKV_append_none _ hs]
    simp [lookupKV]

theorem ensureHost_isSome_mono (hd : HostData) (h : String) {key : String}
    (hs : (lookupKV hd key).isSome = true) :
    (lookupKV (ensureHost hd h) key).isSome = true := by
  by_cases hk : h = key
  · subst hk
    rw [ensureHost_lookup_self]
    rfl
  · rw [ensureHost_lookup_ne hd hk]
    exact hs

theorem ensureHost_isSome_self (hd : HostData) (h : String) :
    (lookupKV (ensureHost hd h) h).isSome = true := by
  rw [ensureHost_lookup_self]
  rfl

theorem appendPair_lookup_ne (hd : HostData) {h key : String}
    (t : Int) (lag : Rat) (hne : h ≠ key) :
    lookupKV (appendPair hd h t lag) key = lookupKV hd key := by
  induction hd with
  | nil => rfl
  | cons p rest ih =>
    obtain ⟨k, s⟩ := p
    by_cases hkh : k = h
    · subst hkh
      simp [appendPair, lookupKV, hne]
    · simp [appendPair, hkh, lookupKV, ih]

theorem appendPair_lookup_self {hd : HostData} {h : String} {s : HostSeries}
    (t : Int) (lag : Rat) (hs : lookupKV hd h = some s) :
    lookupKV (appendPair hd h t lag) h
      = some ⟨s.timestamps ++ [t], s.lags ++ [lag]⟩ := by
  induction hd with
  | nil => simp [lookupKV] at hs
  | cons p rest ih =>
    obtain ⟨k, w⟩ := p
    by_cases hkh : k = h
    · subst hkh
      have hws : w = s := by simpa [lookupKV] using hs
      subst hws
      simp [appendPair, lookupKV]
    · simp only [lookupKV, hkh, if_false] at hs
      simp [appendPair, hkh, lookupKV, ih hs]

theorem appendPair_isSome (hd : HostData) (h : String) (t : Int) (lag : Rat)
    (key : String) :
    (lookupKV (appendPair hd h t lag) key).isSome
      = (lookupKV hd key).isSome := by
  induction hd with
  | nil => rfl
  | cons p rest ih =>
    obtain ⟨k, s⟩ := p
    by_cases hkh : k = h
    · subst hkh
      by_cases hkey : k = key
      · simp [appendPair, lookupKV, hkey]
      · simp [appendPair, lookupKV, hkey]
    · by_cases hkey : k = key
      · subst hkey
        simp [appendPair, hkh, lookupKV]
      · simp [appendPair, hkh, lookupKV, hkey, ih]

theorem lagStep_ne (ts : Int) (hd : HostData) (p : String × String)
    {host : String} (hne : p.1 ≠ host) :
    tsOf (lagStep ts hd p) host = tsOf hd host
    ∧ lagOf (lagStep ts hd p) host = lagOf hd host := by
  unfold lagStep
  cases hmv : parseInt p.2 with
  | some mv =>
    unfold tsOf lagOf
    rw [appendPair_lookup_ne _ _ _ hne, ensureHost_lookup_ne _ hne]
    exact ⟨rfl, rfl⟩
  | none =>
    unfold tsOf lagOf
    rw [ensureHost_lookup_ne _ hne]
    exact ⟨rfl, rfl⟩

theorem lagStep_self_some (ts : Int) (hd : HostData) (p : String × String)
    {mv : Int} (hmv : parseInt p.2 = some mv) :
    tsOf (lagStep ts hd p) p.1 = tsOf hd p.1 ++ [ts]
    ∧ lagOf (lagStep ts hd p) p.1
      = lagOf hd p.1 ++ [((mv - ts : Int) : Rat) / 3600] := by
  unfold lagStep
  rw [hmv]
  have happ := appendPair_lookup_self ts
    (((mv - ts : Int) : Rat) / 3600) (ensureHost_lookup_self hd p.1)
  unfold tsOf lagOf
  rw [happ]
  cases hs : lookupKV hd p.1 with
  | some s => simp [hs]
  | none => simp [hs, emptySeries]

theorem lagStep_self_none (ts : Int) (hd : HostData) (p : String × String)
    (hmv : parseInt p.2 = none) :
    tsOf (lagStep ts hd p) p.1 = tsOf hd p.1
    ∧ lagOf (lagStep ts hd p) p.1 = lagOf hd p.1 := by
  unfold lagStep
  rw [hmv]
  unfold tsOf lagOf
  rw [ensureHost_lookup_self]
  cases hs : lookupKV hd p.1 with
  | some s => simp [hs]
  | none => simp [hs, emptySeries]

theorem lagStep_isSome_mono (ts : Int) (hd : HostData) (p : String × String)
    {key : String} (hs : (lookupKV hd key).isSome = true) :
    (lookupKV (lagStep ts hd p) key).isSome = true := by
  unfold lagStep
  cases hmv : parseInt p.2 with
  | some mv =>
    rw [appendPair_isSome]
    exact ensureHost_isSome_mono hd p.1 hs
  | none => exact ensureHost_isSome_mono hd p.1 hs

theorem lagStep_isSome_self (ts : Int) (hd : HostData) (p : String × String) :
    (lookupKV (lagStep ts hd p) p.1).isSome = true := by
  unfold lagStep
  cases hmv : parseInt p.2 with
  | some mv =>
    rw [appendPair_isSome]
    exact ensureHost_isSome_self hd p.1
  | none => exact ensureHost_isSome_self hd p.1

theorem foldl_lagStep_series (ts : Int) (host : String) :
    ∀ (hm : List (String × String)) (hd : HostData),
      tsOf (hm.foldl (lagStep ts) hd) host
        = tsOf hd host ++ (pairsFor ts host hm).map Prod.fst
      ∧ lagOf (hm.foldl (lagStep ts) hd) host
        = lagOf hd host ++ (pairsFor ts host hm).map Prod.snd := by
  intro hm
  induction hm with
  | nil => intro hd; simp [pairsFor]
  | cons p rest ih =>
    intro hd
    rw [List.foldl_cons]
    obtain ⟨ihts, ihlag⟩ := ih (lagStep ts hd p)
    by_cases hph : p.1 = host
    · cases hmv : parseInt p.2 with
      | some mv =>
        obtain ⟨hts, hlag⟩ := lagStep_self_some ts hd p hmv
        rw [hph] at hts hlag
        constructor
        · rw [ihts, hts]
          simp [pairsFor, hph, hmv]
        · rw [ihlag, hlag]
          simp [pairsFor, hph, hmv]
      | none =>
        obtain ⟨hts, hlag⟩ := lagStep_self_none ts hd p hmv
        rw [hph] at hts hlag
        constructor
        · rw [ihts, hts]
          simp [pairsFor, hph, hmv]
        · rw [ihlag, hlag]
          simp [pairsFor, hph, hmv]
    · obtain ⟨hts, hlag⟩ := lagStep_ne ts hd p hph
      constructor
      · rw [ihts, hts]
        simp [pairsFor, hph]
      · rw [ihlag, hlag]
        simp [pairsFor, hph]

theorem foldl_lagStep_isSome_mono (ts : Int) :
    ∀ (hm : List (String × String)) (hd : HostData) (key : String),
      (lookupKV hd key).isSome = true →
      (lookupKV (hm.foldl (lagStep ts) hd) key).isSome = true := by
  intro hm
  induction hm with
  | nil => intro hd key hs; exact hs
  | cons p rest ih =>
    intro hd key hs
    rw [List.foldl_cons]
    exact ih _ key (lagStep_isSome_mono ts hd p hs)

theorem foldl_lagStep_registers (ts : Int) :
    ∀ (hm : List (String × String)) (hd : HostData),
      ∀ p ∈ hm, (lookupKV (hm.foldl (lagStep ts) hd) p.1).isSome = true := by
  intro hm
  induction hm with
  | nil => intro hd p hp; cases hp
  | cons q rest ih =>
    intro hd p hp
    rw [List.foldl_cons]
    rcases List.mem_cons.mp hp with hpq | hpr
    · subst hpq
      exact foldl_lagStep_isSome_mono ts rest _ p.1 (lagStep_isSome_self ts hd p)
    · exact ih _ p hpr

theorem processEntry_series (fqrn host : String) (hd : HostData) (e : Entry)
    {hd' : HostData} (h : processEntry fqrn hd e = some hd') :
    tsOf hd' host = tsOf hd host ++ (entryPairs fqrn host e).map Prod.fst
    ∧ lagOf hd' host = lagOf hd host ++ (entryPairs fqrn host e).map Prod.snd := by
  obtain ⟨tsOpt, fqOpt⟩ := e
  cases tsOpt with
  | none =>
    have hhd : hd' = hd := by
      cases fqOpt <;> simpa [processEntry] using h.symm
    subst hhd
    cases fqOpt <;> simp [entryPairs]
  | some tsS =>
    cases fqOpt with
    | none =>
      have hhd : hd' = hd := by simpa [processEntry] using h.symm
      subst hhd
      simp [entryPairs]
    | some fq =>
      simp only [processEntry] at h
      cases hlk : lookupKV fq fqrn with
      | none =>
        rw [hlk] at h
        have hhd : hd' = hd := by simpa using h.symm
        subst hhd
        simp [entryPairs, hlk]
      | some hm =>
        rw [hlk] at h
        cases hts : parseInt tsS with
        | none => rw [hts] at h; cases h
        | some ts =>
          rw [hts] at h
          have hhd : hd' = hm.foldl (lagStep ts) hd := by simpa using h.symm
          subst hhd
          simpa [entryPairs, hlk, hts] using foldl_lagStep_series ts host hm hd

theorem processEntry_isSome_mono (fqrn : String) (hd : HostData) (e : Entry)
    {hd' : HostData} (h : processEntry fqrn hd e = some hd') {key : String}
    (hs : (lookupKV hd key).isSome = true) :
    (lookupKV hd' key).isSome = true := by
  obtain ⟨tsOpt, fqOpt⟩ := e
  cases tsOpt with
  | none =>
    have hhd : hd' = hd := by
      cases fqOpt <;> simpa [processEntry] using h.symm
    subst hhd
    exact hs
  | some tsS =>
    cases fqOpt with
    | none =>
      have hhd : hd' = hd := by simpa [processEntry] using h.symm
      subst hhd
      exact hs
    | some fq =>
      simp only [processEntry] at h
      cases hlk : lookupKV fq fqrn with
      | none =>
        rw [hlk] at h
        have hhd : hd' = hd := by simpa using h.symm
        subst hhd
        exact hs
      | some hm =>
        rw [hlk] at h
        cases hts : parseInt tsS with
        | none => rw [hts] at h; cases h
        | some ts =>
          rw [hts] at h
          have hhd : hd' = hm.foldl (lagStep ts) hd := by simpa using h.symm
          subst hhd
          exact foldl_lagStep_isSome_mono ts hm hd key hs

theorem collectFold_series (fqrn host : String) :
    ∀ (data : List Entry) (hd hd' : HostData),
      collectFold fqrn data hd = some hd' →
      tsOf hd' host = tsOf hd host ++ (lagSeriesSpec fqrn host data).map Prod.fst
      ∧ lagOf hd' host
        = lagOf hd host ++ (lagSeriesSpec fqrn host data).map Prod.snd := by
  intro data
  induction data with
  | nil =>
    intro hd hd' h
    have hhd : hd' = hd := by simpa [collectFold] using h.symm
    subst hhd
    simp [lagSeriesSpec]
  | cons e rest ih =>
    intro hd hd' h
    rw [collectFold] at h
    cases hpe : processEntry fqrn hd e with
    | none => rw [hpe] at h; cases h
    | some hd1 =>
      rw [hpe] at h
      obtain ⟨ihts, ihlag⟩ := ih hd1 hd' h
      obtain ⟨hts, hlag⟩ := processEntry_series fqrn host hd e hpe
      rw [lagSeriesSpec]
      constructor
      · rw [ihts, hts, List.map_append, List.append_assoc]
      · rw [ihlag, hlag, List.map_append, List.append_assoc]

theorem collectFold_total (fqrn : String) :
    ∀ (data : List Entry), entriesParseFor data fqrn = true →
      ∀ hd, ∃ hd', collectFold fqrn data hd = some hd' := by
  intro data
  induction data with
  | nil => intro _ hd; exact ⟨hd, rfl⟩
  | cons e rest ih =>
    intro hall hd
    rw [entriesParseFor, List.all_cons, Bool.and_eq_true] at hall
    have hrest : entriesParseFor rest fqrn = true := hall.2
    obtain ⟨tsOpt, fqOpt⟩ := e
    cases fqOpt with
    | none =>
      obtain ⟨hd', hh⟩ := ih hrest hd
      refine ⟨hd', ?_⟩
      rw [collectFold]
      cases tsOpt <;> simpa [processEntry] using hh
    | some fq =>
      cases hlk : lookupKV fq fqrn with
      | none =>
        obtain ⟨hd', hh⟩ := ih hrest hd
        refine ⟨hd', ?_⟩
        rw [collectFold]
        cases tsOpt <;> simp [processEntry, hlk] <;> exact hh
      | some hm =>
        have hhead := hall.1
        simp only [hlk] at hhead
        cases tsOpt with
        | none => simp at hhead
        | some tsS =>
          have hint : isIntString tsS = true := by simpa using hhead
          rw [isIntString] at hint
          cases hts : parseInt tsS with
          | none => rw [hts] at hint; cases hint
          | some ts =>
            obtain ⟨hd', hh⟩ := ih hrest (hm.foldl (lagStep ts) hd)
            refine ⟨hd', ?_⟩
            rw [collectFold]
            simpa [processEntry, hlk, hts] using hh

theorem collectFold_isSome_mono (fqrn : String) :
    ∀ (data : List Entry) (hd hd' : HostData) (key : String),
      collectFold fqrn data hd = some hd' →
      (lookupKV hd key).isSome = true →
      (lookupKV hd' key).isSome = true := by
  intro data
  induction data with
  | nil =>
    intro hd hd' key h hs
    have hhd : hd' = hd := by simpa [collectFold] using h.symm
    subst hhd
    exact hs
  | cons e rest ih =>
    intro hd hd' key h hs
    rw [collectFold] at h
    cases hpe : processEntry fqrn hd e with
    | none => rw [hpe] at h; cases h
    | some hd1 =>
      rw [hpe] at h
      exact ih hd1 hd' key h (processEntry_isSome_mono fqrn hd e hpe hs)

theorem collectFold_lacks (fqrn : String) :
    ∀ (data : List Entry), lacksRepo data fqrn = true →
      ∀ hd, collectFold fqrn data hd = some hd := by
  intro data
  induction data with
  | nil => intro _ hd; rfl
  | cons e rest ih =>
    intro hall hd
    rw [lacksRepo, List.all_cons, Bool.and_eq_true] at hall
    have hrest : lacksRepo rest fqrn = true := hall.2
    obtain ⟨tsOpt, fqOpt⟩ := e
    rw [collectFold]
    cases fqOpt with
    | none =>
      cases tsOpt <;> simpa [processEntry] using ih hrest hd
    | some fq =>
      have hlk : lookupKV fq fqrn = none := by
        have := hall.1
        simpa [Option.isNone_iff_eq_none] using this
      cases tsOpt <;> simp [processEntry, hlk] <;> exact ih hrest hd

theorem take_append_len {α : Type} (l1 l2 : List α) :
    (l1 ++ l2).take l1.length = l1 := by
  induction l1 with
  | nil => simp
  | cons a rest ih => simp [ih]

theorem getLast?_append_singleton {α : Type} (l : List α) (a : α) :
    (l ++ [a]).getLast? = some a :=
  List.getLast?_concat l

theorem collectFold_registers (fqrn : String) :
    ∀ (data : List Entry) (hd hd' : HostData),
      collectFold fqrn data hd = some hd' →
      ∀ e ∈ data, ∀ tsS fq hm, e.timestamp = some tsS → e.fqrns = some fq →
        lookupKV fq fqrn = some hm →
        ∀ p ∈ hm, (lookupKV hd' p.1).isSome = true := by
  intro data
  induction data with
  | nil => intro hd hd' _ e he; cases he
  | cons e0 rest ih =>
    intro hd hd' h e he tsS fq hm hts hfq hlk p hp
    rw [collectFold] at h
    cases hpe : processEntry fqrn hd e0 with
    | none => rw [hpe] at h; cases h
    | some hd1 =>
      rw [hpe] at h
      rcases List.mem_cons.mp he with hee | her
      · subst hee
        obtain ⟨tsOpt, fqOpt⟩ := e
        simp only at hts hfq
        subst hts
        subst hfq
        simp only [processEntry, hlk] at hpe
        cases hpts : parseInt tsS with
        | none => rw [hpts] at hpe; cases hpe
        | some ts =>
          rw [hpts] at hpe
          have hhd1 : hd1 = hm.foldl (lagStep ts) hd := by
            simpa using hpe.symm
          subst hhd1
          exact collectFold_isSome_mono fqrn rest _ hd' p.1 h
            (foldl_lagStep_registers ts hm hd p hp)
      · exact ih hd1 hd' h e her tsS fq hm hts hfq hlk p hp

/-! ## The claims -/

/-- **C6**: the Endpoint Client returns the timestamp encoded after the
sentinel `'T'` in the first line beginning with `'T'` (whitespace around it
stripped), and it raises exactly when the HTTP status is not a success or
when no line begins with `'T'`; the body `"C123\nT1700000000\n"` yields
`1700000000` (as its decimal string). -/
theorem endpoint_client_contract :
    fetch_cvmfs_timestamp 200 "C123\nT1700000000\n" = Except.ok "1700000000"
  ∧ fetch_cvmfs_timestamp 200 "T42  \n" = Except.ok "42"
  ∧ (∀ status body line, status = 200 →
      (splitlines body).find? startsT = some line →
      fetch_cvmfs_timestamp status body
        = Except.ok (pyStrip ⟨line.data.drop 1⟩))
  ∧ (∀ status body, status ≠ 200 →
      fetch_cvmfs_timestamp status body
        = Except.error "Failed to fetch cvmfs timestamp")
  ∧ (∀ body, (splitlines body).find? startsT = none →
      fetch_cvmfs_timestamp 200 body
        = Except.error "No line starting with T found in .cvmfspublished")
  ∧ (∀ status body t, fetch_cvmfs_timestamp status body = Except.ok t →
      status = 200 ∧ ∃ line, (splitlines body).find? startsT = some line
        ∧ t = pyStrip ⟨line.data.drop 1⟩) := by
  refine ⟨by decide, by decide, ?_, ?_, ?_, ?_⟩
  · intro status body line hst hline
    subst hst
    simp [fetch_cvmfs_timestamp, hline]
  · intro status body hst
    simp [fetch_cvmfs_timestamp, hst]
  · intro body hline
    simp [fetch_cvmfs_timestamp, hline]
  · intro status body t h
    rw [fetch_cvmfs_timestamp] at h
    by_cases hst : status = 200
    · subst hst
      simp only [ne_eq, not_true_eq_false, if_false] at h
      cases hline : (splitlines body).find? startsT with
      | none => rw [hline] at h; cases h
      | some line =>
        rw [hline] at h
        refine ⟨rfl, line, rfl, ?_⟩
        injection h with h1
        exact h1.symm
    · rw [if_pos hst] at h
      cases h

/-- Witness for C6 at a concrete marker body. -/
theorem endpoint_client_contract_witness :
    fetch_cvmfs_timestamp 200 "T7\n" = Except.ok "7" := by
  have h := endpoint_client_contract.2.2.1 200 "T7\n" "T7" rfl (by decide)
  exact h.trans (by decide)

/-- **C2**: for any repository, with `k` of the `n = 6` configured mirrors
failing, the Fleet Sampler returns a mapping of exactly `n - k` entries,
one per succeeding mirror (the embedding is a total function: every
per-mirror failure is caught); with `k = n` it returns the empty mapping
and `main` omits the repository from `fqrn_data`. -/
theorem fleet_sampler_partial_failure (fetch : String → Except String String)
    (fqrn : String) :
    (fetch_all_cvmfs_timestamps fetch fqrn).length
      = hostBases.length
        - (hostBases.filter (fun b => !isOkE (fetch (markerUrl b fqrn)))).length
  ∧ (∀ b ∈ hostBases, ∀ t, fetch (markerUrl b fqrn) = Except.ok t →
      lookupKV (fetch_all_cvmfs_timestamps fetch fqrn) (hostName b) = some t)
  ∧ ((hostBases.filter (fun b => !isOkE (fetch (markerUrl b fqrn)))).length
        = hostBases.length →
      fetch_all_cvmfs_timestamps fetch fqrn = []
      ∧ lookupKV (buildFqrnData fetch) fqrn = none) := by
  have hlen := fetchFold_length fetch fqrn hostBases hostNodup []
    (fun b _ => rfl)
  have hsplit : (hostBases.filter
        (fun b => isOkE (fetch (markerUrl b fqrn)))).length
      + (hostBases.filter (fun b => !isOkE (fetch (markerUrl b fqrn)))).length
      = hostBases.length := by
    simpa using filter_length_split hostBases
      (fun b => isOkE (fetch (markerUrl b fqrn)))
  refine ⟨?_, ?_, ?_⟩
  · rw [fetch_all_cvmfs_timestamps, hlen]
    simp only [List.length_nil, Nat.zero_add]
    omega
  · intro b hb t hf
    exact fetchFold_found fetch fqrn hostNodup hb hf []
  · intro hk
    have hnil : fetch_all_cvmfs_timestamps fetch fqrn = [] := by
      have : (fetch_all_cvmfs_timestamps fetch fqrn).length = 0 := by
        rw [fetch_all_cvmfs_timestamps, hlen]
        simp only [List.length_nil, Nat.zero_add]
        omega
      exact List.length_eq_zero.mp this
    exact ⟨hnil, buildFold_lookup_none fetch hnil fqrnsCfg [] rfl⟩

/-- Witness for C2: every mirror unreachable — empty mapping, repository
omitted. -/
theorem fleet_sampler_partial_failure_witness :
    fetch_all_cvmfs_timestamps (fun _ => Except.error "down") "eic" = []
    ∧ lookupKV (buildFqrnData (fun _ => Except.error "down")) "eic" = none := by
  exact (fleet_sampler_partial_failure (fun _ => Except.error "down")
    "eic").2.2 (by decide)

/-- **C8**: a successful sample is recorded under the base location with
scheme, port (and path) stripped — the bare host name — and maps to the
timestamp string the Endpoint Client returned; the six configured bases
yield exactly the six bare host names. -/
theorem mirror_key_is_bare_host (fetch : String → Except String String)
    (fqrn base t : String) (hb : base ∈ hostBases)
    (hf : fetch (markerUrl base fqrn) = Except.ok t) :
    lookupKV (fetch_all_cvmfs_timestamps fetch fqrn) (hostName base) = some t
  ∧ hostBases.map hostName
      = ["cvmfs-egi.gridpp.rl.ac.uk", "klei.nikhef.nl",
         "cvmfs-s1bnl.opensciencegrid.org", "cvmfs-s1fnal.opensciencegrid.org",
         "cvmfsrep.grid.sinica.edu.tw", "cvmfs-stratum-one.ihep.ac.cn"] :=
  ⟨fetchFold_found fetch fqrn hostNodup hb hf [], by decide⟩

/-- Witness for C8 at a concrete mirror base. -/
theorem mirror_key_is_bare_host_witness :
    lookupKV (fetch_all_cvmfs_timestamps (fun _ => Except.ok "123") "eic")
      (hostName "http://klei.nikhef.nl:8000/cvmfs") = some "123" := by
  have h := mirror_key_is_bare_host (fun _ => Except.ok "123") "eic"
    "http://klei.nikhef.nl:8000/cvmfs" "123" (by decide) rfl
  exact h.1

/-- **C1**: whenever the freshly sampled per-repository map is non-empty,
`main` issues exactly one write whose record is the previously loaded
record with a single entry appended at the end: length grows by one, the
old record is a strict prefix (no prior entry reordered or mutated), and
the new entry sits at the end. -/
theorem history_accumulator_append (readRes : Except String (String × String))
    (parse : String → Option (List Entry))
    (fetch : String → Except String String) (nowTs : String)
    (writeOut : WriteReq → Except String Unit)
    (hne : buildFqrnData fetch ≠ []) :
    ∃ req, mainPass readRes parse fetch nowTs writeOut
        = .writeAttempt req (writeOut req)
      ∧ reqData req
        = (loadState readRes parse).1 ++ [mkEntry nowTs (buildFqrnData fetch)]
      ∧ (reqData req).length = (loadState readRes parse).1.length + 1
      ∧ (loadState readRes parse).1 <+: reqData req
      ∧ reqData req ≠ (loadState readRes parse).1
      ∧ (reqData req).take (loadState readRes parse).1.length
          = (loadState readRes parse).1
      ∧ (reqData req).getLast? = some (mkEntry nowTs (buildFqrnData fetch)) := by
  obtain ⟨req, hreq, hdata⟩ := mainPass_write readRes parse fetch nowTs
    writeOut hne
  have hdata' : reqData req
      = (loadState readRes parse).1 ++ [mkEntry nowTs (buildFqrnData fetch)] :=
    hdata
  refine ⟨req, hreq, hdata', ?_, ?_, ?_, ?_, ?_⟩
  · rw [hdata']; simp
  · rw [hdata']; exact ⟨[mkEntry nowTs (buildFqrnData fetch)], rfl⟩
  · rw [hdata']
    intro hcon
    have := congrArg List.length hcon
    simp at this
  · rw [hdata']; exact take_append_len _ _
  · rw [hdata']; exact getLast?_append_singleton _ _

/-- Witness for C1 at a concrete pass. -/
theorem history_accumulator_append_witness :
    ∃ req, mainPass (Except.error "e") (fun _ => none)
        (fun _ => Except.ok "1") "1700003600" (fun _ => Except.ok ())
        = .writeAttempt req ((fun _ => Except.ok ()) req)
      ∧ reqData req
        = (loadState (Except.error "e") (fun _ => none)).1
            ++ [mkEntry "1700003600" (buildFqrnData (fun _ => Except.ok "1"))] := by
  obtain ⟨req, h1, h2, _⟩ := history_accumulator_append (Except.error "e")
    (fun _ => none) (fun _ => Except.ok "1") "1700003600"
    (fun _ => Except.ok ()) (by decide)
  exact ⟨req, h1, h2⟩

/-- **C3**: if every tracked repository yields zero successful mirror
samples, the pass fails with the `NoDataCollected` error of line 175 and no
write request is ever issued (the store is untouched); if at least one
repository has at least one successful sample, the pass proceeds to build
and write the appended record. -/
theorem pass_no_data_gate (readRes : Except String (String × String))
    (parse : String → Option (List Entry))
    (fetch : String → Except String String) (nowTs : String)
    (writeOut : WriteReq → Except String Unit) :
    ((∀ f ∈ fqrnsCfg, fetch_all_cvmfs_timestamps fetch f = []) →
      mainPass readRes parse fetch nowTs writeOut = PassOutcome.noData
      ∧ ∀ stored newSha, finalStore stored newSha PassOutcome.noData = stored)
  ∧ ((∃ f ∈ fqrnsCfg, fetch_all_cvmfs_timestamps fetch f ≠ []) →
      ∃ req, mainPass readRes parse fetch nowTs writeOut
          = PassOutcome.writeAttempt req (writeOut req)
        ∧ reqData req
          = appendEntry (loadState readRes parse).1 nowTs (buildFqrnData fetch)) := by
  constructor
  · intro hall
    have hempty : buildFqrnData fetch = [] := buildFold_all_empty fetch hall []
    exact ⟨mainPass_eq_noData _ _ _ _ _ hempty, fun _ _ => rfl⟩
  · rintro ⟨f, hf, hne⟩
    exact mainPass_write _ _ _ _ _ (buildFold_ne_of_mem fetch hf hne [])

/-- Witness for C3: all mirrors of both repositories down — the pass ends
in `noData`. -/
theorem pass_no_data_gate_witness :
    mainPass (Except.error "e") (fun _ => none) (fun _ => Except.error "down")
      "1" (fun _ => Except.ok ()) = PassOutcome.noData := by
  have h := (pass_no_data_gate (Except.error "e") (fun _ => none)
    (fun _ => Except.error "down") "1" (fun _ => Except.ok ())).1 (by decide)
  exact h.1

/-- **C4**: when the stored record exists but its content fails to parse,
the pass never completes a successful write against the store (modelled
from the spec, sections 4.3/6: a token-less create is refused when the path
already exists), the stored history is preserved unchanged, and the single
write the code does attempt — a create carrying only the fresh entry — is
refused, so the unparseable record is never replaced. -/
theorem malformed_record_never_clobbered (content sha : String)
    (parse : String → Option (List Entry))
    (fetch : String → Except String String) (nowTs : String)
    (r : List Entry) (hbad : parse content = none) :
    (∀ req, mainPass (Except.ok (content, sha)) parse fetch nowTs
        (storeWrite (some (r, sha)))
        ≠ PassOutcome.writeAttempt req (Except.ok ()))
  ∧ (∀ newSha, finalStore (some (r, sha)) newSha
        (mainPass (Except.ok (content, sha)) parse fetch nowTs
          (storeWrite (some (r, sha)))) = some (r, sha))
  ∧ (∀ req res, mainPass (Except.ok (content, sha)) parse fetch nowTs
        (storeWrite (some (r, sha))) = PassOutcome.writeAttempt req res →
      reqData req = [mkEntry nowTs (buildFqrnData fetch)]
      ∧ ∃ msg, res = Except.error msg) := by
  have hload : loadState (Except.ok (content, sha)) parse = ([], none) := by
    simp [loadState, hbad]
  by_cases hfd : buildFqrnData fetch = []
  · have hout := mainPass_eq_noData (Except.ok (content, sha)) parse fetch
      nowTs (storeWrite (some (r, sha))) hfd
    refine ⟨?_, ?_, ?_⟩
    · intro req hcon
      rw [hout] at hcon
      cases hcon
    · intro newSha
      rw [hout]
      rfl
    · intro req res hcon
      rw [hout] at hcon
      cases hcon
  · have hsha : (loadState (Except.ok (content, sha)) parse).2 = none := by
      rw [hload]
    have hout := mainPass_create (Except.ok (content, sha)) parse fetch nowTs
      (storeWrite (some (r, sha))) hsha hfd
    have hsw : storeWrite (some (r, sha))
        (WriteReq.create (appendEntry
          (loadState (Except.ok (content, sha)) parse).1 nowTs
          (buildFqrnData fetch)))
        = Except.error "Failed to create file: path already exists" := rfl
    rw [hsw] at hout
    refine ⟨?_, ?_, ?_⟩
    · intro req hcon
      rw [hout] at hcon
      injection hcon with h1 h2
      cases h2
    · intro newSha
      rw [hout]
      rfl
    · intro req res hcon
      rw [hout] at hcon
      injection hcon with h1 h2
      refine ⟨?_, ⟨_, h2.symm⟩⟩
      rw [← h1, reqData, hload, appendEntry]
      rfl

/-- Witness for C4 at a concrete unparseable record. -/
theorem malformed_record_never_clobbered_witness :
    (∀ req, mainPass (Except.ok ("BROKEN", "sha0")) (fun _ => none)
        (fun _ => Except.ok "1") "2" (storeWrite (some ([], "sha0")))
        ≠ PassOutcome.writeAttempt req (Except.ok ()))
  ∧ (∀ newSha, finalStore (some (([] : List Entry), "sha0")) newSha
        (mainPass (Except.ok ("BROKEN", "sha0")) (fun _ => none)
          (fun _ => Except.ok "1") "2" (storeWrite (some ([], "sha0"))))
        = some ([], "sha0")) := by
  have h := malformed_record_never_clobbered "BROKEN" "sha0" (fun _ => none)
    (fun _ => Except.ok "1") "2" [] rfl
  exact ⟨h.1, h.2.1⟩

/-- **C5**: for a Record whose matching entries carry parseable sample
times, the Lag Deriver visits every entry containing the target repository
and, per mirror value that parses as an integer, appends
`(sample_time, (mirror_timestamp - sample_time)/3600)` to that mirror's
series, skipping exactly the unparseable mirror values; sampling at
`1700003600` against a mirror timestamp `1700000000` derives a lag of
`-1` hour. -/
theorem lag_deriver_series (data : List Entry) (fqrn : String)
    (h : entriesParseFor data fqrn = true) :
    (∃ hd, collectHostData data fqrn = some hd
      ∧ ∀ host,
          tsOf hd host = (lagSeriesSpec fqrn host data).map Prod.fst
          ∧ lagOf hd host = (lagSeriesSpec fqrn host data).map Prod.snd)
  ∧ collectHostData
      [⟨some "1700003600", some [("eic", [("A", "1700000000")])]⟩] "eic"
      = some [("A", ⟨[1700003600], [-1]⟩)] := by
  constructor
  · obtain ⟨hd, hh⟩ := collectFold_total fqrn data h []
    refine ⟨hd, hh, fun host => ?_⟩
    obtain ⟨hts, hlag⟩ := collectFold_series fqrn host data [] hd hh
    constructor
    · simpa [tsOf, lookupKV] using hts
    · simpa [lagOf, lookupKV] using hlag
  · have h1 : parseInt "1700003600" = some 1700003600 := by decide
    have h2 : parseInt "1700000000" = some 1700000000 := by decide
    simp [collectHostData, collectFold, processEntry, lookupKV, h1, h2,
      lagStep, appendPair, ensureHost, emptySeries]

/-- Witness for C5 at the scenario Record. -/
theorem lag_deriver_series_witness :
    ∃ hd, collectHostData
        [⟨some "1700003600", some [("eic", [("A", "1700000000")])]⟩] "eic"
        = some hd
      ∧ ∀ host,
          tsOf hd host = (lagSeriesSpec "eic" host
            [⟨some "1700003600", some [("eic", [("A", "1700000000")])]⟩]).map
              Prod.fst
          ∧ lagOf hd host = (lagSeriesSpec "eic" host
            [⟨some "1700003600", some [("eic", [("A", "1700000000")])]⟩]).map
              Prod.snd :=
  (lag_deriver_series
    [⟨some "1700003600", some [("eic", [("A", "1700000000")])]⟩] "eic"
    (by decide)).1

/-- **C7**: when no Sample Entry contains the target repository, the Lag
Deriver returns the empty mapping without raising, and `plot_lag` takes the
informational no-data branch instead of rendering. -/
theorem lag_deriver_no_data (data : List Entry) (fqrn : String)
    (h : lacksRepo data fqrn = true) :
    collectHostData data fqrn = some []
    ∧ plot_lag data fqrn = PlotOutcome.noData := by
  have hc : collectHostData data fqrn = some [] :=
    collectFold_lacks fqrn data h []
  refine ⟨hc, ?_⟩
  simp [plot_lag, hc]

/-- Witness for C7: a Record covering only `"eic"`, queried for
`"singularity"`. -/
theorem lag_deriver_no_data_witness :
    collectHostData
      [⟨some "1700003600", some [("eic", [("A", "1700000000")])]⟩]
      "singularity" = some []
    ∧ plot_lag
      [⟨some "1700003600", some [("eic", [("A", "1700000000")])]⟩]
      "singularity" = PlotOutcome.noData :=
  lag_deriver_no_data _ _ (by decide)

/-- **C10**: every mirror occurring in a matching Sample Entry is
registered in `host_data` before its value is parsed, so it keeps a key
(possibly with an empty series) even when every one of its values fails to
parse; consequently a non-empty `host_data` takes the rendering branch —
never the no-data branch — while empty-series mirrors are excluded from the
plotted lines. -/
theorem lag_deriver_registers_before_parse (data : List Entry)
    (fqrn : String) (hd : HostData)
    (h : collectHostData data fqrn = some hd) :
    (∀ e ∈ data, ∀ tsS fq hm, e.timestamp = some tsS → e.fqrns = some fq →
      lookupKV fq fqrn = some hm →
      ∀ p ∈ hm, (lookupKV hd p.1).isSome = true)
  ∧ (∀ q ∈ hd, q.2.timestamps = [] →
      plot_lag data fqrn
        = PlotOutcome.rendered (hd.filter (fun q => !q.2.timestamps.isEmpty))
      ∧ q ∉ hd.filter (fun q => !q.2.timestamps.isEmpty)) := by
  constructor
  · exact collectFold_registers fqrn data [] hd h
  · intro q hq hqts
    have hie : hd.isEmpty = false := by
      cases hc : hd
      · subst hc; cases hq
      · rfl
    constructor
    · simp [plot_lag, h, hie]
    · intro hcon
      have := (List.mem_filter.mp hcon).2
      rw [hqts] at this
      simp at this

/-- Witness for C10: one entry whose single mirror value is unparseable —
the mirror keeps an empty-series key, the figure is still rendered, and the
mirror is not among the plotted lines. -/
theorem lag_deriver_registers_before_parse_witness :
    (lookupKV [("A", emptySeries)] "A").isSome = true
    ∧ plot_lag [⟨some "1700003600", some [("eic", [("A", "xx")])]⟩] "eic"
        = PlotOutcome.rendered []
    ∧ ("A", emptySeries)
        ∉ [("A", emptySeries)].filter (fun q => !q.2.timestamps.isEmpty) := by
  have h := lag_deriver_registers_before_parse
    [⟨some "1700003600", some [("eic", [("A", "xx")])]⟩] "eic"
    [("A", emptySeries)] (by decide)
  have hreg := h.1 ⟨some "1700003600", some [("eic", [("A", "xx")])]⟩
    (by simp) "1700003600" [("eic", [("A", "xx")])] [("A", "xx")] rfl rfl
    (by decide) ("A", "xx") (by simp)
  have hrest := h.2 ("A", emptySeries) (by simp) rfl
  exact ⟨hreg, hrest.1.trans (by decide), hrest.2⟩

/-- **C9** (counterexample): the claim that every constructed Sample Entry
maps each mirror to a *string-encoded integer* fails, because the Endpoint
Client never validates the digits after the sentinel: a marker body
`"C123\nTnotanumber\n"` makes it return `"notanumber"`, and the entry the
pass then builds carries that unparseable value. -/
theorem sample_entry_schema_counterexample :
    fetch_cvmfs_timestamp 200 "C123\nTnotanumber\n" = Except.ok "notanumber"
  ∧ entryConforms
      (mkEntry (current_timestamp 1700003600)
        (buildFqrnData (fun _ => Except.ok "notanumber"))) = false := by
  constructor
  · decide
  · decide

/-- **C9** (amended): every Sample Entry a pass constructs stores
`sample_time` as the decimal string of an integer (unix seconds), and maps
each included repository to a mapping from mirror name to the string
returned by the Endpoint Client — a string-encoded integer whenever every
fetched marker value consists of digits (the code itself does not validate
this). -/
theorem sample_entry_schema_amended (fetch : String → Except String String)
    (now : Int)
    (hf : ∀ u t, fetch u = Except.ok t → isIntString t = true) :
    (∃ n : Int, (mkEntry (current_timestamp now)
        (buildFqrnData fetch)).timestamp = some (toString n))
  ∧ entryValuesIntEncoded
      (mkEntry (current_timestamp now) (buildFqrnData fetch)) = true := by
  refine ⟨⟨now, rfl⟩, ?_⟩
  simp only [entryValuesIntEncoded, mkEntry]
  rw [List.all_eq_true]
  intro p hp
  rw [List.all_eq_true]
  intro q hq
  rcases buildFold_mem fetch fqrnsCfg [] p hp with hcon | ⟨f, hpf⟩
  · cases hcon
  · rw [hpf] at hq
    rw [fetch_all_cvmfs_timestamps] at hq
    rcases fetchFold_mem fetch f hostBases [] q hq with hcon | ⟨b, _, hok⟩
    · cases hcon
    · exact hf _ _ hok

/-- Witness for the amended C9: all mirrors answering with digit strings
produce a fully integer-encoded entry. -/
theorem sample_entry_schema_amended_witness :
    (∃ n : Int, (mkEntry (current_timestamp 1700003600)
        (buildFqrnData (fun _ => Except.ok "1700000000"))).timestamp
        = some (toString n))
  ∧ entryValuesIntEncoded
      (mkEntry (current_timestamp 1700003600)
        (buildFqrnData (fun _ => Except.ok "1700000000"))) = true := by
  refine sample_entry_schema_amended (fun _ => Except.ok "1700000000")
    1700003600 ?_
  intro u t h
  injection h with h1
  rw [← h1]
  decide

end CvmfsWatch
